import Mathlib

/-!
# Record store of `lab1/server/server.js`

A shallow embedding of the Express handlers of `src/lab1/server/server.js`
(`getRecords`, `saveRecords`, `initializeFiles` and the four `/records` routes)
and of the `Record` constructor of `src/lab1/client/script.js`.

Modelling conventions.

* A parsed JSON value is a `Json` tree.  The payload of a number is never
  inspected by the handlers; it is carried as an `Int`.
* A JavaScript object is an `Obj`: its own properties in creation order, with
  pairwise distinct keys.  Reading a property that is missing gives `none`
  (JavaScript `undefined`).  The special enumeration order of integer-like
  keys is not modelled; all statements are about property lookups.
* The two data files are modelled by the collection they hold: `Disk.json` is
  the array that `JSON.parse` gives back for `records.json`, `Disk.xml` is the
  record sequence that was handed to the XML builder for `records.xml`.
* Every storage call can fail.  A `Fault` names the first storage call of a
  request that throws; a write that throws leaves its target file as it was.
* `uuidv4()` is an argument of the create handler.
-/

set_option autoImplicit false

namespace RecordStore

/-! ## JSON values and objects -/

/-- A parsed JSON value. -/
inductive Json where
  | null
  | bool (b : Bool)
  | num (n : Int)
  | str (s : String)
  | arr (items : List Json)
  | obj (props : List (String × Json))

namespace Json

mutual
/-- Decision procedure for equality of JSON values. -/
def decEqJson : (a b : Json) → Decidable (a = b)
  | .null, .null => isTrue rfl
  | .bool a, .bool b =>
    if h : a = b then isTrue (by rw [h]) else isFalse (by intro e; injection e; contradiction)
  | .num a, .num b =>
    if h : a = b then isTrue (by rw [h]) else isFalse (by intro e; injection e; contradiction)
  | .str a, .str b =>
    if h : a = b then isTrue (by rw [h]) else isFalse (by intro e; injection e; contradiction)
  | .arr a, .arr b =>
    match decEqItems a b with
    | isTrue h => isTrue (by rw [h])
    | isFalse _ => isFalse (by intro e; injection e; contradiction)
  | .obj a, .obj b =>
    match decEqProps a b with
    | isTrue h => isTrue (by rw [h])
    | isFalse _ => isFalse (by intro e; injection e; contradiction)
  | .null, .bool _ => isFalse (by intro e; cases e)
  | .null, .num _ => isFalse (by intro e; cases e)
  | .null, .str _ => isFalse (by intro e; cases e)
  | .null, .arr _ => isFalse (by intro e; cases e)
  | .null, .obj _ => isFalse (by intro e; cases e)
  | .bool _, .null => isFalse (by intro e; cases e)
  | .bool _, .num _ => isFalse (by intro e; cases e)
  | .bool _, .str _ => isFalse (by intro e; cases e)
  | .bool _, .arr _ => isFalse (by intro e; cases e)
  | .bool _, .obj _ => isFalse (by intro e; cases e)
  | .num _, .null => isFalse (by intro e; cases e)
  | .num _, .bool _ => isFalse (by intro e; cases e)
  | .num _, .str _ => isFalse (by intro e; cases e)
  | .num _, .arr _ => isFalse (by intro e; cases e)
  | .num _, .obj _ => isFalse (by intro e; cases e)
  | .str _, .null => isFalse (by intro e; cases e)
  | .str _, .bool _ => isFalse (by intro e; cases e)
  | .str _, .num _ => isFalse (by intro e; cases e)
  | .str _, .arr _ => isFalse (by intro e; cases e)
  | .str _, .obj _ => isFalse (by intro e; cases e)
  | .arr _, .null => isFalse (by intro e; cases e)
  | .arr _, .bool _ => isFalse (by intro e; cases e)
  | .arr _, .num _ => isFalse (by intro e; cases e)
  | .arr _, .str _ => isFalse (by intro e; cases e)
  | .arr _, .obj _ => isFalse (by intro e; cases e)
  | .obj _, .null => isFalse (by intro e; cases e)
  | .obj _, .bool _ => isFalse (by intro e; cases e)
  | .obj _, .num _ => isFalse (by intro e; cases e)
  | .obj _, .str _ => isFalse (by intro e; cases e)
  | .obj _, .arr _ => isFalse (by intro e; cases e)
/-- Decision procedure for equality of JSON arrays. -/
def decEqItems : (a b : List Json) → Decidable (a = b)
  | [], [] => isTrue rfl
  | [], _ :: _ => isFalse (by intro e; cases e)
  | _ :: _, [] => isFalse (by intro e; cases e)
  | x :: xs, y :: ys =>
    match decEqJson x y, decEqItems xs ys with
    | isTrue h, isTrue h2 => isTrue (by rw [h, h2])
    | isFalse _, _ => isFalse (by intro e; injection e; contradiction)
    | _, isFalse _ => isFalse (by intro e; injection e; contradiction)
/-- Decision procedure for equality of JSON property lists. -/
def decEqProps : (a b : List (String × Json)) → Decidable (a = b)
  | [], [] => isTrue rfl
  | [], _ :: _ => isFalse (by intro e; cases e)
  | _ :: _, [] => isFalse (by intro e; cases e)
  | (k, x) :: xs, (l, y) :: ys =>
    if hk : k = l then
      match decEqJson x y, decEqProps xs ys with
      | isTrue h, isTrue h2 => isTrue (by rw [hk, h, h2])
      | isFalse _, _ => isFalse (by intro e; injection e with e1 e2; injection e1; contradiction)
      | _, isFalse _ => isFalse (by intro e; injection e; contradiction)
    else isFalse (by intro e; injection e with e1 e2; injection e1; contradiction)
end

instance : DecidableEq Json := decEqJson

/-- JavaScript truthiness of a parsed JSON value (`ToBoolean`). -/
def truthy : Json → Bool
  | .null => false
  | .bool b => b
  | .num n => n != 0
  | .str s => s != ""
  | .arr _ => true
  | .obj _ => true

end Json

/-- Property read `o[key]` on a raw property list: the first binding of `key`. -/
def getProp : List (String × Json) → String → Option Json
  | [], _ => none
  | (k, v) :: rest, key => if k = key then some v else getProp rest key

/-- Property write `o[key] = val` on a raw property list: an existing property
keeps its place and takes the new value, a new property goes last. -/
def setProp : List (String × Json) → String → Json → List (String × Json)
  | [], key, val => [(key, val)]
  | (k, v) :: rest, key, val =>
    if k = key then (k, val) :: rest else (k, v) :: setProp rest key val

/-- A JavaScript object: own properties in creation order, keys distinct. -/
structure Obj where
  props : List (String × Json)
  nodup : (props.map Prod.fst).Nodup

namespace Obj

instance : DecidableEq Obj := fun a b =>
  if h : a.props = b.props then isTrue (by cases a; cases b; cases h; rfl)
  else isFalse (fun e => h (by rw [e]))

/-- The object literal without properties. -/
def empty : Obj := ⟨[], List.nodup_nil⟩

/-- Property read `o[key]`; `none` is `undefined`. -/
def get (o : Obj) (key : String) : Option Json := getProp o.props key

/-- Property definition `key: val` inside an object literal. -/
def set (o : Obj) (key : String) (val : Json) : Obj :=
  ⟨setProp o.props key val, by
    have keys : ∀ l : List (String × Json), (setProp l key val).map Prod.fst =
        if key ∈ l.map Prod.fst then l.map Prod.fst else l.map Prod.fst ++ [key] := by
      intro l
      induction l with
      | nil => simp [setProp]
      | cons p rest ih =>
        obtain ⟨k, v⟩ := p
        by_cases h : k = key
        · simp [setProp, h]
        · have h' : ¬ key = k := fun e => h e.symm
          simp only [setProp, h, if_false, List.map_cons, ih, List.mem_cons, h', false_or]
          split <;> simp
    rw [keys]
    split
    · exact o.nodup
    · rename_i hk
      rw [List.nodup_append]
      refine ⟨o.nodup, List.nodup_singleton _, ?_⟩
      intro a ha hb
      simp only [List.mem_singleton] at hb
      exact hk (hb ▸ ha)⟩

/-- Spread `...src` inside an object literal whose properties so far are
`target`: every own property of `src` is defined on the result, in order. -/
def spread (target src : Obj) : Obj :=
  src.props.foldl (fun acc p => acc.set p.1 p.2) target

end Obj

/-! ## Storage -/

/-- The two data files, each given by the collection it holds:
`json` for `records.json`, `xml` for `records.xml`. -/
structure Disk where
  json : List Obj
  xml : List Obj
deriving DecidableEq

/-- The data directory before start-up: a file that does not exist is `none`. -/
structure Files where
  json : Option (List Obj)
  xml : Option (List Obj)

/-- The first storage call of a request that throws, if any. -/
inductive Fault where
  /-- No storage call throws. -/
  | none
  /-- The read of `records.json` in `getRecords` throws. -/
  | read
  /-- The write of `records.json` in `saveRecords` throws. -/
  | jsonWrite
  /-- Building or writing `records.xml` in `saveRecords` throws. -/
  | xmlWrite
deriving DecidableEq

/-- The exception thrown by a failing storage call. -/
inductive IoError where
  | io
deriving DecidableEq

/-- Start-up `initializeFiles`: a missing file is created holding the empty
collection, an existing file is left alone. -/
def initializeFiles (fs : Files) : Disk :=
  { json := match fs.json with
      | some c => c
      | Option.none => []
    xml := match fs.xml with
      | some c => c
      | Option.none => [] }

/-- Reading the whole collection: `getRecords` reads and parses `records.json`. -/
def getRecords (f : Fault) (d : Disk) : Except IoError (List Obj) :=
  match f with
  | .read => .error .io
  | _ => .ok d.json

/-- Writing the whole collection: `saveRecords` writes `records.json` first and
`records.xml` second.  The disk it leaves behind is returned in both outcomes. -/
def saveRecords (f : Fault) (records : List Obj) (d : Disk) : Disk × Except IoError Unit :=
  match f with
  | .jsonWrite => (d, .error .io)
  | .xmlWrite => ({ json := records, xml := d.xml }, .error .io)
  | _ => ({ json := records, xml := records }, .ok ())

/-! ## Routes -/

/-- What a handler sends back. -/
inductive Response where
  /-- Sent by `res.status(status).json(body)` with an object. -/
  | json (status : Nat) (body : Obj)
  /-- Sent by `res.json(records)` with the array of records. -/
  | jsonList (status : Nat) (records : List Obj)
  /-- Sent by `res.status(status).send()`, no body. -/
  | send (status : Nat)
deriving DecidableEq

/-- The HTTP status of a response. -/
def Response.status : Response → Nat
  | .json s _ => s
  | .jsonList s _ => s
  | .send s => s

/-- The object `{ error: msg }`. -/
def errorBody (msg : String) : Obj := Obj.empty.set "error" (.str msg)

/-- The comparison `r.id === id` of a record with a route parameter (a string). -/
def idIs (id : String) (r : Obj) : Bool :=
  match r.get "id" with
  | some (.str s) => decide (s = id)
  | _ => false

/-- The array method `findIndex`; `none` stands for the result `-1`. -/
def findIndex (p : Obj → Bool) : List Obj → Option Nat
  | [] => Option.none
  | r :: rest => if p r then some 0 else (findIndex p rest).map (· + 1)

/-- The object literal `{ id: uuid, ...body }` of the create handler. -/
def newRecord (uuid : String) (body : Obj) : Obj :=
  (Obj.empty.set "id" (.str uuid)).spread body

/-- The object literal `{ ...old, ...body, id: id }` of the update handler. -/
def mergeRecord (old body : Obj) (id : String) : Obj :=
  ((Obj.empty.spread old).spread body).set "id" (.str id)

namespace app

/-- Handler `app.get('/records')`: the operation `list`. -/
def get (f : Fault) (d : Disk) : Disk × Response :=
  match getRecords f d with
  | .error _ => (d, .json 500 (errorBody "Error reading records"))
  | .ok records => (d, .jsonList 200 records)

/-- Handler `app.post('/records')`: the operation `create`.  `uuid` is the value
of the call `uuidv4()`, `body` is `req.body`. -/
def post (f : Fault) (uuid : String) (body : Obj) (d : Disk) : Disk × Response :=
  match getRecords f d with
  | .error _ => (d, .json 500 (errorBody "Error creating record"))
  | .ok records =>
    let created := newRecord uuid body
    let records := records ++ [created]
    match saveRecords f records d with
    | (d1, .error _) => (d1, .json 500 (errorBody "Error creating record"))
    | (d1, .ok _) => (d1, .json 201 created)

/-- Handler `app.put('/records/:id')`: the operation `update`.  `id` is
`req.params.id`, `body` is `req.body`. -/
def put (f : Fault) (id : String) (body : Obj) (d : Disk) : Disk × Response :=
  match getRecords f d with
  | .error _ => (d, .json 500 (errorBody "Error updating record"))
  | .ok records =>
    match findIndex (idIs id) records with
    | Option.none => (d, .json 404 (errorBody "Record not found"))
    | some index =>
      -- spreading a missing element would add no property
      let old := match records[index]? with
        | some r => r
        | Option.none => Obj.empty
      let updated := mergeRecord old body id
      let records := records.set index updated
      match saveRecords f records d with
      | (d1, .error _) => (d1, .json 500 (errorBody "Error updating record"))
      | (d1, .ok _) =>
        match records[index]? with
        | some r => (d1, .json 200 r)
        | Option.none => (d1, .send 200)

/-- Handler `app.delete('/records/:id')`: the operation `delete`. -/
def delete (f : Fault) (id : String) (d : Disk) : Disk × Response :=
  match getRecords f d with
  | .error _ => (d, .json 500 (errorBody "Error deleting record"))
  | .ok records =>
    let records := records.filter (fun r => !(idIs id r))
    match saveRecords f records d with
    | (d1, .error _) => (d1, .json 500 (errorBody "Error deleting record"))
    | (d1, .ok _) => (d1, .send 204)

end app

/-- The collection a later `list()` call returns: the body of a fault-free
`app.get` on the disk. -/
def list (d : Disk) : List Obj :=
  match (app.get .none d).2 with
  | .jsonList _ records => records
  | _ => []

/-! ## Client view -/

/-- The JavaScript expression `a || b` with a property read on the left. -/
def jsOr (a : Option Json) (b : Json) : Json :=
  match a with
  | some v => if v.truthy then v else b
  | Option.none => b

/-- The client class `Record`; a field that is `undefined` is `none`. -/
structure Record where
  id : Option Json
  firstname : Option Json
  lastname : Option Json
  middlename : Json
  address : Option Json
  idnumber : Option Json
  photo : Option Json
deriving DecidableEq

/-- The constructor of the client class `Record`. -/
def Record.new (data : Obj) : Record :=
  { id := data.get "id"
    firstname := data.get "firstname"
    lastname := data.get "lastname"
    middlename := jsOr (data.get "middlename") (.str "")
    address := data.get "address"
    idnumber := data.get "idnumber"
    photo := data.get "photo" }

/-! ## Interleaved create requests

The handlers are `async` functions on one event loop: a handler runs without
interruption up to its next `await` and other handlers may run in between.
`app.post` awaits three storage calls: the read of `getRecords` and the two
writes of `saveRecords`. -/

/-- A create request: the value of its `uuidv4()` call and its body. -/
structure CreateCall where
  uuid : String
  body : Obj
deriving DecidableEq

/-- How far a running `app.post` handler has got. -/
inductive Stage where
  /-- Not started: the read of `getRecords` is still to come. -/
  | start
  /-- The read is done: the local array `records` holds what was read. -/
  | loaded (records : List Obj)
  /-- The record was pushed on the local array and `records.json` written. -/
  | jsonWritten (records : List Obj)
  /-- The file `records.xml` is written and the response sent. -/
  | responded
deriving DecidableEq

/-- A running create request. -/
structure Task where
  call : CreateCall
  stage : Stage
deriving DecidableEq

/-- A request that has not started yet. -/
def Task.fresh (c : CreateCall) : Task := { call := c, stage := .start }

/-- One uninterrupted stretch of `app.post`, up to its next `await`. -/
def Task.advance (t : Task) (d : Disk) : Task × Disk :=
  match t.stage with
  | .start => ({ call := t.call, stage := .loaded d.json }, d)
  | .loaded records =>
    let records := records ++ [newRecord t.call.uuid t.call.body]
    ({ call := t.call, stage := .jsonWritten records }, { json := records, xml := d.xml })
  | .jsonWritten records =>
    ({ call := t.call, stage := .responded }, { json := d.json, xml := records })
  | .responded => (t, d)

/-- The server with its requests in flight. -/
structure Sys where
  disk : Disk
  tasks : List Task
deriving DecidableEq

/-- The event loop resumes request number `i`. -/
def Sys.step (s : Sys) (i : Nat) : Sys :=
  match s.tasks[i]? with
  | Option.none => s
  | some t => { disk := (t.advance s.disk).2, tasks := s.tasks.set i (t.advance s.disk).1 }

/-- The event loop resumes requests in the order given by `schedule`. -/
def Sys.run (s : Sys) (schedule : List Nat) : Sys := schedule.foldl Sys.step s

/-- The schedule in which `n` requests run one after another. -/
def sequential : Nat → List Nat
  | 0 => []
  | n + 1 => sequential n ++ [n, n, n]

/-! ## Collection invariant -/

/-- The record has an `id` that is a non-empty string. -/
def hasNonEmptyId (r : Obj) : Bool :=
  match r.get "id" with
  | some (.str s) => s != ""
  | _ => false

/-- Every record has a non-empty `id` and no two records share an `id`. -/
def UniqueIds (c : List Obj) : Prop :=
  (∀ r ∈ c, hasNonEmptyId r = true) ∧ (c.map (fun r => r.get "id")).Nodup

instance (c : List Obj) : Decidable (UniqueIds c) := by
  unfold UniqueIds; infer_instance

/-! ## Sample data -/

/-- The body `{firstname:"Ivan", lastname:"Petrenko", address:"Kyiv", idnumber:"123"}`. -/
def ivan : Obj :=
  (((Obj.empty.set "firstname" (.str "Ivan")).set "lastname" (.str "Petrenko")).set
    "address" (.str "Kyiv")).set "idnumber" (.str "123")

/-- The body `{id: "a1"}`. -/
def bodyWithId : Obj := Obj.empty.set "id" (.str "a1")

/-- The body `{id: ""}`. -/
def bodyWithEmptyId : Obj := Obj.empty.set "id" (.str "")

/-- The body `{address: "Lviv"}`. -/
def lvivBody : Obj := Obj.empty.set "address" (.str "Lviv")

/-- A stored record `{id: "a1", firstname: "Ivan", address: "Kyiv"}`. -/
def storedA : Obj :=
  ((Obj.empty.set "id" (.str "a1")).set "firstname" (.str "Ivan")).set "address" (.str "Kyiv")

/-- A stored record `{id: "b2", firstname: "Olha"}`. -/
def storedB : Obj := (Obj.empty.set "id" (.str "b2")).set "firstname" (.str "Olha")

/-- The disk with both files holding the empty collection. -/
def emptyDisk : Disk := { json := [], xml := [] }

/-- The disk with both files holding `storedA` and `storedB`. -/
def sampleDisk : Disk := { json := [storedA, storedB], xml := [storedA, storedB] }

/-! ## Properties of objects -/

theorem getProp_setProp (l : List (String × Json)) (key : String) (val : Json) (k : String) :
    getProp (setProp l key val) k = if k = key then some val else getProp l k := by
  induction l with
  | nil =>
    by_cases h : k = key
    · simp [setProp, getProp, h]
    · have h1 : ¬ key = k := fun e => h e.symm
      simp [setProp, getProp, h, h1]
  | cons p rest ih =>
    obtain ⟨k0, v0⟩ := p
    by_cases h0 : k0 = key
    · subst h0
      by_cases h : k = k0
      · simp [setProp, getProp, h]
      · have h1 : ¬ k0 = k := fun e => h e.symm
        simp [setProp, getProp, h, h1]
    · by_cases h1 : k0 = k
      · subst h1
        simp [setProp, getProp, h0]
      · simp [setProp, getProp, h0, h1, ih]

theorem getProp_eq_none_of_not_mem (l : List (String × Json)) (k : String)
    (h : k ∉ l.map Prod.fst) : getProp l k = none := by
  induction l with
  | nil => rfl
  | cons p rest ih =>
    obtain ⟨k0, v0⟩ := p
    simp only [List.map_cons, List.mem_cons, not_or] at h
    have h1 : ¬ k0 = k := fun e => h.1 e.symm
    simp [getProp, h1, ih h.2]

theorem Obj.get_empty (k : String) : Obj.empty.get k = none := rfl

theorem Obj.get_set (o : Obj) (key : String) (val : Json) (k : String) :
    (o.set key val).get k = if k = key then some val else o.get k :=
  getProp_setProp o.props key val k

theorem get_foldl_set (l : List (String × Json)) (hl : (l.map Prod.fst).Nodup)
    (t : Obj) (k : String) :
    (l.foldl (fun acc p => acc.set p.1 p.2) t).get k =
      match getProp l k with
      | some v => some v
      | none => t.get k := by
  induction l generalizing t with
  | nil => rfl
  | cons p rest ih =>
    obtain ⟨k0, v0⟩ := p
    simp only [List.map_cons, List.nodup_cons] at hl
    simp only [List.foldl_cons, ih hl.2, Obj.get_set]
    by_cases h : k0 = k
    · subst h
      simp [getProp, getProp_eq_none_of_not_mem rest k0 hl.1]
    · have h1 : ¬ k = k0 := fun e => h e.symm
      simp [getProp, h, h1]

/-- A property read on `{ ...target, ...src }`: the value of `src` when `src`
has the key, the value of `target` otherwise. -/
theorem Obj.get_spread (target src : Obj) (k : String) :
    (target.spread src).get k =
      match src.get k with
      | some v => some v
      | none => target.get k :=
  get_foldl_set src.props src.nodup target k

theorem get_newRecord (uuid : String) (body : Obj) (k : String) :
    (newRecord uuid body).get k =
      match body.get k with
      | some v => some v
      | none => if k = "id" then some (.str uuid) else none := by
  simp [newRecord, Obj.get_spread, Obj.get_set, Obj.get_empty]

theorem get_mergeRecord (old body : Obj) (id : String) (k : String) :
    (mergeRecord old body id).get k =
      if k = "id" then some (.str id) else
        match body.get k with
        | some v => some v
        | none => old.get k := by
  simp only [mergeRecord, Obj.get_set, Obj.get_spread, Obj.get_empty]
  by_cases h : k = "id"
  · simp [h]
  · simp only [h, if_false]
    cases body.get k <;> cases old.get k <;> rfl

theorem idIs_eq_true_iff (id : String) (r : Obj) :
    idIs id r = true ↔ r.get "id" = some (.str id) := by
  unfold idIs
  split
  · rename_i s hs
    simp [hs]
  · rename_i hne
    constructor
    · intro h; cases h
    · intro h; exact absurd h (hne id)

/-! ## Properties of `findIndex` -/

theorem findIndex_eq_none (p : Obj → Bool) (l : List Obj) :
    findIndex p l = none ↔ ∀ r ∈ l, p r = false := by
  induction l with
  | nil => simp [findIndex]
  | cons x rest ih =>
    by_cases hx : p x = true
    · simp [findIndex, hx]
    · simp only [Bool.not_eq_true] at hx
      simp [findIndex, hx, ih]

theorem findIndex_eq_some (p : Obj → Bool) (l : List Obj) (i : Nat)
    (h : findIndex p l = some i) :
    ∃ pre x post, l = pre ++ x :: post ∧ pre.length = i ∧
      (∀ r ∈ pre, p r = false) ∧ p x = true := by
  induction l generalizing i with
  | nil => simp [findIndex] at h
  | cons x rest ih =>
    by_cases hx : p x = true
    · simp only [findIndex, hx, if_true, Option.some.injEq] at h
      exact ⟨[], x, rest, rfl, by simpa using h, by simp, hx⟩
    · simp only [Bool.not_eq_true] at hx
      simp only [findIndex, hx, Bool.false_eq_true, if_false, Option.map_eq_some'] at h
      obtain ⟨j, hj, hji⟩ := h
      obtain ⟨pre, y, post, hl, hlen, hpre, hy⟩ := ih j hj
      refine ⟨x :: pre, y, post, by simp [hl], by simp [hlen, hji], ?_, hy⟩
      intro r hr
      rcases List.mem_cons.mp hr with h1 | h1
      · exact h1 ▸ hx
      · exact hpre r h1

theorem findIndex_isSome_of_mem (p : Obj → Bool) (l : List Obj)
    (h : ∃ r ∈ l, p r = true) : ∃ i, findIndex p l = some i := by
  cases hf : findIndex p l with
  | none =>
    obtain ⟨r, hr, hp⟩ := h
    have := (findIndex_eq_none p l).mp hf r hr
    simp [this] at hp
  | some i => exact ⟨i, rfl⟩

/-! ## Update -/

theorem findIndex_first_match (p : Obj → Bool) (pre post : List Obj) (x : Obj)
    (hpre : ∀ r ∈ pre, p r = false) (hx : p x = true) :
    findIndex p (pre ++ x :: post) = some pre.length := by
  induction pre with
  | nil => simp [findIndex, hx]
  | cons y rest ih =>
    have hy : p y = false := hpre y (by simp)
    have := ih (fun r hr => hpre r (by simp [hr]))
    simp [findIndex, hy, this]

theorem getElem?_split (pre post : List Obj) (x : Obj) :
    (pre ++ x :: post)[pre.length]? = some x := by
  rw [List.getElem?_append_right (Nat.le_refl _)]
  simp only [Nat.sub_self, List.getElem?_cons_zero]

theorem set_split (pre post : List Obj) (x y : Obj) :
    (pre ++ x :: post).set pre.length y = pre ++ y :: post := by
  induction pre with
  | nil => rfl
  | cons z rest ih => simp

/-- A collection in which some record has the `id` splits at the first such
record. -/
theorem split_at_first_match (id : String) (c : List Obj)
    (h : ∃ r ∈ c, idIs id r = true) :
    ∃ pre old post, c = pre ++ old :: post ∧ (∀ r ∈ pre, idIs id r = false) ∧
      idIs id old = true := by
  obtain ⟨i, hi⟩ := findIndex_isSome_of_mem (idIs id) c h
  obtain ⟨pre, x, post, hc, _, hpre, hx⟩ := findIndex_eq_some (idIs id) c i hi
  exact ⟨pre, x, post, hc, hpre, hx⟩

/-- The update handler on a collection split at the first record whose `id` is
the route parameter, for each storage fault. -/
theorem put_at_first_match (f : Fault) (pre post : List Obj) (old : Obj) (xml : List Obj)
    (id : String) (body : Obj)
    (hpre : ∀ r ∈ pre, idIs id r = false) (hold : idIs id old = true) :
    app.put f id body { json := pre ++ old :: post, xml := xml } =
      match f with
      | .none =>
        ({ json := pre ++ mergeRecord old body id :: post,
           xml := pre ++ mergeRecord old body id :: post },
          .json 200 (mergeRecord old body id))
      | .read =>
        ({ json := pre ++ old :: post, xml := xml },
          .json 500 (errorBody "Error updating record"))
      | .jsonWrite =>
        ({ json := pre ++ old :: post, xml := xml },
          .json 500 (errorBody "Error updating record"))
      | .xmlWrite =>
        ({ json := pre ++ mergeRecord old body id :: post, xml := xml },
          .json 500 (errorBody "Error updating record")) := by
  have hfind := findIndex_first_match (idIs id) pre post old hpre hold
  cases f <;>
    simp only [app.put, getRecords, saveRecords, hfind, getElem?_split, set_split]

/-- The update handler when no record has the route parameter as `id`. -/
theorem put_no_match (f : Fault) (id : String) (body : Obj) (d : Disk)
    (h : ∀ r ∈ d.json, idIs id r = false) :
    app.put f id body d =
      match f with
      | .read => (d, .json 500 (errorBody "Error updating record"))
      | _ => (d, .json 404 (errorBody "Record not found")) := by
  have hfind := (findIndex_eq_none (idIs id) d.json).mpr h
  cases f <;> simp only [app.put, getRecords, hfind]

/-- C1: when some record has the route parameter as `id`, the update handler
without a storage fault answers 200 with a record whose `id` is the route
parameter (also when the body has an `id` key), whose other keys present in
the body have the value of the body, and whose keys absent from the body keep
the value of the old record; both files then hold the old collection with the
first record of that `id` replaced in place by the returned record; and a
200 answer only comes from this fault-free run. -/
theorem put_updates_first_match (d : Disk) (id : String) (body : Obj)
    (h : ∃ r ∈ d.json, idIs id r = true) :
    ∃ pre old post updated,
      d.json = pre ++ old :: post ∧ (∀ r ∈ pre, idIs id r = false) ∧ idIs id old = true ∧
      app.put .none id body d =
        ({ json := pre ++ updated :: post, xml := pre ++ updated :: post },
          .json 200 updated) ∧
      updated.get "id" = some (.str id) ∧
      (∀ k v, k ≠ "id" → body.get k = some v → updated.get k = some v) ∧
      (∀ k, body.get k = none → updated.get k = old.get k) ∧
      (∀ f b, (app.put f id body d).2 = .json 200 b →
        app.put f id body d = app.put .none id body d) := by
  obtain ⟨pre, old, post, hc, hpre, hold⟩ := split_at_first_match id d.json h
  have hd : d = { json := pre ++ old :: post, xml := d.xml } := by
    cases d; simp only at hc; rw [hc]
  refine ⟨pre, old, post, mergeRecord old body id, hc, hpre, hold, ?_, ?_, ?_, ?_, ?_⟩
  · rw [hd]
    exact put_at_first_match .none pre post old d.xml id body hpre hold
  · simp [get_mergeRecord]
  · intro k v hk hv
    simp [get_mergeRecord, hk, hv]
  · intro k hk
    by_cases hid : k = "id"
    · subst hid
      simp [get_mergeRecord, (idIs_eq_true_iff id old).mp hold]
    · simp [get_mergeRecord, hid, hk]
  · intro f b hb
    rw [hd] at hb ⊢
    cases f
    · rfl
    all_goals
      rw [put_at_first_match _ pre post old d.xml id body hpre hold] at hb
      simp at hb

theorem put_updates_first_match_witness :
    (∃ r ∈ sampleDisk.json, idIs "a1" r = true) ∧
    ∃ pre old post updated,
      sampleDisk.json = pre ++ old :: post ∧ (∀ r ∈ pre, idIs "a1" r = false) ∧
      idIs "a1" old = true ∧
      app.put .none "a1" lvivBody sampleDisk =
        ({ json := pre ++ updated :: post, xml := pre ++ updated :: post },
          .json 200 updated) ∧
      updated.get "id" = some (.str "a1") ∧
      (∀ k v, k ≠ "id" → lvivBody.get k = some v → updated.get k = some v) ∧
      (∀ k, lvivBody.get k = none → updated.get k = old.get k) ∧
      (∀ f b, (app.put f "a1" lvivBody sampleDisk).2 = .json 200 b →
        app.put f "a1" lvivBody sampleDisk = app.put .none "a1" lvivBody sampleDisk) :=
  ⟨⟨storedA, by decide, by decide⟩,
    put_updates_first_match sampleDisk "a1" lvivBody ⟨storedA, by decide, by decide⟩⟩

/-- C2: when no record has the route parameter as `id` and the collection can
be read, the update handler answers 404 with `Record not found` and leaves both
files as they were, whatever write would fail; when some record has that `id`,
the answer is never 404. -/
theorem put_notFound (d : Disk) (id : String) (body : Obj) :
    ((∀ r ∈ d.json, idIs id r = false) →
      ∀ f, f ≠ Fault.read →
        app.put f id body d = (d, .json 404 (errorBody "Record not found"))) ∧
    ((∃ r ∈ d.json, idIs id r = true) →
      ∀ f, (app.put f id body d).2.status ≠ 404) := by
  constructor
  · intro h f hf
    rw [put_no_match f id body d h]
    cases f
    · rfl
    · exact absurd rfl hf
    · rfl
    · rfl
  · intro h f
    obtain ⟨pre, old, post, hc, hpre, hold⟩ := split_at_first_match id d.json h
    have hd : d = { json := pre ++ old :: post, xml := d.xml } := by
      cases d; simp only at hc; rw [hc]
    rw [hd, put_at_first_match f pre post old d.xml id body hpre hold]
    cases f <;> simp [Response.status]

theorem put_notFound_witness :
    (∀ r ∈ sampleDisk.json, idIs "zz" r = false) ∧
    (∀ f, f ≠ Fault.read →
      app.put f "zz" lvivBody sampleDisk =
        (sampleDisk, .json 404 (errorBody "Record not found"))) ∧
    (∃ r ∈ sampleDisk.json, idIs "b2" r = true) ∧
    (∀ f, (app.put f "b2" lvivBody sampleDisk).2.status ≠ 404) :=
  ⟨by decide,
    (put_notFound sampleDisk "zz" lvivBody).1 (by decide),
    ⟨storedB, by decide, by decide⟩,
    (put_notFound sampleDisk "b2" lvivBody).2 ⟨storedB, by decide, by decide⟩⟩

/-! ## Delete -/

theorem filter_not_idIs_of_no_match (id : String) (c : List Obj)
    (h : ∀ r ∈ c, idIs id r = false) : c.filter (fun r => !(idIs id r)) = c := by
  rw [List.filter_eq_self]
  intro r hr
  simp [h r hr]

/-- C4: the delete handler without a storage fault answers 204 and leaves in
both files the old collection filtered to the records whose `id` is not the
route parameter, in their old order; under no fault is the answer 404; when no
record has that `id` the collection read back is the old one; and deleting
the same `id` a second time gives the same disk and answer as the first. -/
theorem delete_removes_matching (d : Disk) (id : String) :
    app.delete .none id d =
      ({ json := d.json.filter (fun r => !(idIs id r)),
         xml := d.json.filter (fun r => !(idIs id r)) }, .send 204) ∧
    (∀ f, (app.delete f id d).2.status ≠ 404) ∧
    ((∀ r ∈ d.json, idIs id r = false) → list (app.delete .none id d).1 = list d) ∧
    app.delete .none id (app.delete .none id d).1 = app.delete .none id d := by
  refine ⟨rfl, ?_, ?_, ?_⟩
  · intro f
    cases f <;> simp [app.delete, getRecords, saveRecords, Response.status]
  · intro h
    simp [app.delete, getRecords, saveRecords, list, app.get,
      filter_not_idIs_of_no_match id d.json h]
  · simp [app.delete, getRecords, saveRecords]

theorem delete_removes_matching_witness :
    (∀ r ∈ sampleDisk.json, idIs "zz" r = false) ∧
    list (app.delete .none "zz" sampleDisk).1 = list sampleDisk :=
  ⟨by decide, (delete_removes_matching sampleDisk "zz").2.2.1 (by decide)⟩

/-! ## Storage faults -/

/-- C6 fails as stated: a create on the empty store whose write of
`records.xml` throws is answered 500, yet a later `list()` returns the new
record. -/
theorem create_failure_not_rolled_back :
    (app.post .xmlWrite "u1" ivan emptyDisk).2 =
      .json 500 (errorBody "Error creating record") ∧
    list (app.post .xmlWrite "u1" ivan emptyDisk).1 ≠ list emptyDisk := by
  decide

/-- C6 (amended): a mutation whose read or whose write of `records.json` fails
answers 500 and leaves both files as they were; a mutation whose write of
`records.xml` fails answers 500 (update: never 200) although `records.json`
already holds the collection after the mutation, which a later `list()`
returns, while `records.xml` keeps its old content: nothing is rolled back. -/
theorem fault_outcomes (d : Disk) (uuid id : String) (body : Obj) :
    (app.post .read uuid body d = (d, .json 500 (errorBody "Error creating record")) ∧
     app.post .jsonWrite uuid body d = (d, .json 500 (errorBody "Error creating record")) ∧
     app.post .xmlWrite uuid body d =
       ({ json := d.json ++ [newRecord uuid body], xml := d.xml },
         .json 500 (errorBody "Error creating record")) ∧
     list (app.post .xmlWrite uuid body d).1 = list (app.post .none uuid body d).1) ∧
    (app.put .read id body d = (d, .json 500 (errorBody "Error updating record")) ∧
     (app.put .jsonWrite id body d).1 = d ∧
     (app.put .jsonWrite id body d).2.status ≠ 200 ∧
     (app.put .xmlWrite id body d).1 =
       { json := (app.put .none id body d).1.json, xml := d.xml } ∧
     (app.put .xmlWrite id body d).2.status ≠ 200 ∧
     list (app.put .xmlWrite id body d).1 = list (app.put .none id body d).1) ∧
    (app.delete .read id d = (d, .json 500 (errorBody "Error deleting record")) ∧
     app.delete .jsonWrite id d = (d, .json 500 (errorBody "Error deleting record")) ∧
     app.delete .xmlWrite id d =
       ({ json := d.json.filter (fun r => !(idIs id r)), xml := d.xml },
         .json 500 (errorBody "Error deleting record")) ∧
     list (app.delete .xmlWrite id d).1 = list (app.delete .none id d).1) := by
  refine ⟨⟨rfl, rfl, rfl, rfl⟩, ?_, ⟨rfl, rfl, rfl, rfl⟩⟩
  by_cases hm : ∃ r ∈ d.json, idIs id r = true
  · obtain ⟨pre, old, post, hc, hpre, hold⟩ := split_at_first_match id d.json hm
    have hd : d = { json := pre ++ old :: post, xml := d.xml } := by
      cases d; simp only at hc; rw [hc]
    rw [hd]
    simp only [put_at_first_match _ pre post old d.xml id body hpre hold]
    simp [Response.status, list, app.get, getRecords]
  · have hm1 : ∀ r ∈ d.json, idIs id r = false := by
      intro r hr
      cases hv : idIs id r with
      | false => rfl
      | true => exact absurd ⟨r, hr, hv⟩ hm
    simp only [put_no_match _ id body d hm1]
    simp [Response.status]

/-! ## Create -/

/-- The `id` of the object literal `{ id: uuid, ...body }`: the `id` of the
body when the body has one, the generated value otherwise. -/
theorem newRecord_id (uuid : String) (body : Obj) :
    (newRecord uuid body).get "id" =
      match body.get "id" with
      | some v => some v
      | none => some (.str uuid) := by
  rw [get_newRecord]
  cases body.get "id" <;> simp

/-- The create handler without a storage fault answers 201 with the record
`{ id: uuid, ...body }` and leaves in both files the old collection followed
by that record; the record has every key of the body with the value of the
body, and the generated `id` when the body has no `id` key. -/
theorem post_appends (d : Disk) (uuid : String) (body : Obj) :
    app.post .none uuid body d =
      ({ json := d.json ++ [newRecord uuid body], xml := d.json ++ [newRecord uuid body] },
        .json 201 (newRecord uuid body)) ∧
    list (app.post .none uuid body d).1 = list d ++ [newRecord uuid body] ∧
    (∀ k v, body.get k = some v → (newRecord uuid body).get k = some v) ∧
    (body.get "id" = none → (newRecord uuid body).get "id" = some (.str uuid)) := by
  refine ⟨rfl, rfl, ?_, ?_⟩
  · intro k v hv
    simp [get_newRecord, hv]
  · intro h
    simp [newRecord_id, h]

/-- C3 fails on the code: with the generated identifier `u1`, non-empty and not
in the collection, a create whose body is `{id: "a1"}` returns a record whose
`id` is `a1`, the `id` of the stored record `storedA`, and a create whose body
is `{id: ""}` returns a record with the empty `id`. -/
theorem create_id_taken_from_body :
    "u1" ≠ "" ∧ (∀ r ∈ sampleDisk.json, idIs "u1" r = false) ∧
    (app.post .none "u1" bodyWithId sampleDisk).2 = .json 201 bodyWithId ∧
    bodyWithId.get "id" = some (.str "a1") ∧
    storedA ∈ sampleDisk.json ∧ storedA.get "id" = some (.str "a1") ∧
    (app.post .none "u1" bodyWithEmptyId sampleDisk).2 = .json 201 bodyWithEmptyId ∧
    bodyWithEmptyId.get "id" = some (.str "") := by
  decide

/-- C8 fails on the code: the record returned by a create with the generated
identifier `u1` and the body `{id: "a1"}` is the last element of the new
collection but does not carry the generated `id`. -/
theorem create_drops_generated_id :
    app.post .none "u1" bodyWithId emptyDisk =
      ({ json := [bodyWithId], xml := [bodyWithId] }, .json 201 bodyWithId) ∧
    bodyWithId.get "id" ≠ some (.str "u1") := by
  decide

/-- C9 fails as stated: the record returned and stored by a create with the
body `ivan`, which has no `middlename` key, has no `middlename` either. -/
theorem create_ivan_has_no_middlename :
    ivan.get "middlename" = none ∧
    app.post .none "u1" ivan emptyDisk =
      ({ json := [newRecord "u1" ivan], xml := [newRecord "u1" ivan] },
        .json 201 (newRecord "u1" ivan)) ∧
    (newRecord "u1" ivan).get "middlename" ≠ some (.str "") := by
  decide

/-- C9 (amended): for a body without a `middlename` key, the record returned
and stored by create has no `middlename` key; the client `Record` built from
that record has `middlename` equal to the empty string. -/
theorem middlename_defaulted_by_client (d : Disk) (uuid : String) (body : Obj)
    (h : body.get "middlename" = none) :
    app.post .none uuid body d =
      ({ json := d.json ++ [newRecord uuid body], xml := d.json ++ [newRecord uuid body] },
        .json 201 (newRecord uuid body)) ∧
    (newRecord uuid body).get "middlename" = none ∧
    (Record.new (newRecord uuid body)).middlename = .str "" := by
  have hm : (newRecord uuid body).get "middlename" = none := by
    rw [get_newRecord, h]
    simp
  refine ⟨rfl, hm, ?_⟩
  simp [Record.new, hm, jsOr]

theorem middlename_defaulted_by_client_witness :
    ivan.get "middlename" = none ∧
    (newRecord "u1" ivan).get "middlename" = none ∧
    (Record.new (newRecord "u1" ivan)).middlename = .str "" :=
  ⟨by decide, (middlename_defaulted_by_client emptyDisk "u1" ivan (by decide)).2⟩

/-! ## The collection invariant -/

theorem hasNonEmptyId_of_get_eq (a b : Obj) (h : a.get "id" = b.get "id") :
    hasNonEmptyId a = hasNonEmptyId b := by
  simp [hasNonEmptyId, h]

/-- The invariant survives a create whose body has no `id` key, given a
generated identifier that is non-empty and not in the collection. -/
theorem uniqueIds_post (f : Fault) (d : Disk) (uuid : String) (body : Obj)
    (hinv : UniqueIds d.json) (hne : uuid ≠ "")
    (hfresh : ∀ r ∈ d.json, idIs uuid r = false) (hbody : body.get "id" = none) :
    UniqueIds (app.post f uuid body d).1.json := by
  have hid : (newRecord uuid body).get "id" = some (.str uuid) := by
    simp [newRecord_id, hbody]
  have hnew : UniqueIds (d.json ++ [newRecord uuid body]) := by
    constructor
    · intro r hr
      rcases List.mem_append.mp hr with h1 | h1
      · exact hinv.1 r h1
      · simp only [List.mem_singleton] at h1
        subst h1
        simp [hasNonEmptyId, hid, hne]
    · rw [List.map_append, List.nodup_append]
      refine ⟨hinv.2, by simp, ?_⟩
      intro v hv hv1
      simp only [List.map_cons, List.map_nil, List.mem_singleton] at hv1
      obtain ⟨r, hr, hrv⟩ := List.mem_map.mp hv
      have h1 : idIs uuid r = true := by
        rw [idIs_eq_true_iff]
        rw [hrv, hv1, hid]
      rw [hfresh r hr] at h1
      cases h1
  cases f
  · exact hnew
  · exact hinv
  · exact hinv
  · exact hnew

/-- The invariant survives every update. -/
theorem uniqueIds_put (f : Fault) (d : Disk) (id : String) (body : Obj)
    (hinv : UniqueIds d.json) : UniqueIds (app.put f id body d).1.json := by
  by_cases hm : ∃ r ∈ d.json, idIs id r = true
  · obtain ⟨pre, old, post, hc, hpre, hold⟩ := split_at_first_match id d.json hm
    have hd : d = { json := pre ++ old :: post, xml := d.xml } := by
      cases d; simp only at hc; rw [hc]
    have hid : (mergeRecord old body id).get "id" = old.get "id" := by
      rw [(idIs_eq_true_iff id old).mp hold]
      simp [get_mergeRecord]
    have hnew : UniqueIds (pre ++ mergeRecord old body id :: post) := by
      rw [hc] at hinv
      constructor
      · intro r hr
        rcases List.mem_append.mp hr with h1 | h1
        · exact hinv.1 r (by simp [h1])
        · rcases List.mem_cons.mp h1 with h2 | h2
          · rw [h2, hasNonEmptyId_of_get_eq _ old hid]
            exact hinv.1 old (by simp)
          · exact hinv.1 r (by simp [h2])
      · have := hinv.2
        simp only [List.map_append, List.map_cons] at this ⊢
        rw [hid]
        exact this
    rw [hd, put_at_first_match f pre post old d.xml id body hpre hold]
    cases f
    · exact hnew
    · exact hc ▸ hinv
    · exact hc ▸ hinv
    · exact hnew
  · have hm1 : ∀ r ∈ d.json, idIs id r = false := by
      intro r hr
      cases hv : idIs id r with
      | false => rfl
      | true => exact absurd ⟨r, hr, hv⟩ hm
    rw [put_no_match f id body d hm1]
    cases f <;> exact hinv

/-- The invariant survives every delete. -/
theorem uniqueIds_delete (f : Fault) (d : Disk) (id : String)
    (hinv : UniqueIds d.json) : UniqueIds (app.delete f id d).1.json := by
  have hnew : UniqueIds (d.json.filter (fun r => !(idIs id r))) := by
    constructor
    · intro r hr
      exact hinv.1 r (List.mem_of_mem_filter hr)
    · exact List.Nodup.sublist (List.Sublist.map _ (List.filter_sublist _)) hinv.2
  cases f
  · exact hnew
  · exact hinv
  · exact hinv
  · exact hnew

/-- C5 fails on the code: the collection of `sampleDisk` has non-empty,
pairwise distinct `id` values and `u1` is a non-empty identifier not in it,
yet after a create with the body `{id: "a1"}` two records share the `id`
`a1`, and after a create with the body `{id: ""}` a record has an empty `id`. -/
theorem create_breaks_unique_ids :
    UniqueIds sampleDisk.json ∧ "u1" ≠ "" ∧
    (∀ r ∈ sampleDisk.json, idIs "u1" r = false) ∧
    (app.post .none "u1" bodyWithId sampleDisk).2.status = 201 ∧
    ¬ UniqueIds (app.post .none "u1" bodyWithId sampleDisk).1.json ∧
    (app.post .none "u1" bodyWithEmptyId sampleDisk).2.status = 201 ∧
    ¬ UniqueIds (app.post .none "u1" bodyWithEmptyId sampleDisk).1.json := by
  decide

/-! ## Interleaved creates -/

theorem step_append (d : Disk) (ts extra : List Task) (i : Nat) (hi : i < ts.length) :
    Sys.step { disk := d, tasks := ts ++ extra } i =
      { disk := (Sys.step { disk := d, tasks := ts } i).disk,
        tasks := (Sys.step { disk := d, tasks := ts } i).tasks ++ extra } := by
  have h1 : (ts ++ extra)[i]? = ts[i]? := List.getElem?_append_left hi
  have h2 : ts[i]? = some ts[i] := List.getElem?_eq_getElem hi
  simp only [Sys.step, h1, h2, List.set_append_left _ _ hi]

theorem step_length (s : Sys) (i : Nat) : (Sys.step s i).tasks.length = s.tasks.length := by
  unfold Sys.step
  split <;> simp

theorem run_length (s : Sys) (schedule : List Nat) :
    (Sys.run s schedule).tasks.length = s.tasks.length := by
  induction schedule generalizing s with
  | nil => rfl
  | cons i rest ih =>
    simp only [Sys.run, List.foldl_cons] at ih ⊢
    rw [ih, step_length]

theorem run_append (d : Disk) (ts extra : List Task) (schedule : List Nat)
    (h : ∀ i ∈ schedule, i < ts.length) :
    Sys.run { disk := d, tasks := ts ++ extra } schedule =
      { disk := (Sys.run { disk := d, tasks := ts } schedule).disk,
        tasks := (Sys.run { disk := d, tasks := ts } schedule).tasks ++ extra } := by
  induction schedule generalizing d ts with
  | nil => rfl
  | cons i rest ih =>
    have hi : i < ts.length := h i (by simp)
    simp only [Sys.run, List.foldl_cons] at ih ⊢
    rw [step_append d ts extra i hi]
    apply ih
    intro j hj
    rw [step_length]
    exact h j (by simp [hj])

theorem lt_of_mem_sequential (n i : Nat) (h : i ∈ sequential n) : i < n := by
  induction n with
  | zero => simp [sequential] at h
  | succ m ih =>
    simp only [sequential, List.mem_append, List.mem_cons, List.mem_singleton,
      List.not_mem_nil, or_false, or_self] at h
    rcases h with h | h
    · exact Nat.lt_succ_of_lt (ih h)
    · omega

/-- One request run from start to end without another one in between. -/
theorem run_last_task (d : Disk) (ts : List Task) (c : CreateCall) :
    Sys.run { disk := d, tasks := ts ++ [Task.fresh c] } [ts.length, ts.length, ts.length] =
      { disk := { json := d.json ++ [newRecord c.uuid c.body],
                  xml := d.json ++ [newRecord c.uuid c.body] },
        tasks := ts ++ [{ call := c, stage := .responded }] } := by
  have hget : ∀ t : Task, (ts ++ [t])[ts.length]? = some t := by
    intro t
    rw [List.getElem?_append_right (Nat.le_refl _)]
    simp
  have hset : ∀ t u : Task, (ts ++ [t]).set ts.length u = ts ++ [u] := by
    intro t u
    clear hget
    induction ts with
    | nil => rfl
    | cons z rest ih => simp
  simp only [Sys.run, List.foldl_cons, List.foldl_nil, Sys.step, hget, hset, Task.fresh,
    Task.advance]

/-- Requests that run one after another append their records in order. -/
theorem run_sequential (c0 : List Obj) (calls : List CreateCall) :
    Sys.run { disk := { json := c0, xml := c0 }, tasks := calls.map Task.fresh }
        (sequential calls.length) =
      { disk := { json := c0 ++ calls.map (fun c => newRecord c.uuid c.body),
                  xml := c0 ++ calls.map (fun c => newRecord c.uuid c.body) },
        tasks := calls.map (fun c => { call := c, stage := .responded }) } := by
  induction calls using List.reverseRecOn with
  | nil => simp [Sys.run, sequential]
  | append_singleton init c ih =>
    have hlen : (init.map Task.fresh).length = init.length := List.length_map _ _
    have hb : ∀ i ∈ sequential init.length, i < (init.map Task.fresh).length := by
      intro i hi
      rw [hlen]
      exact lt_of_mem_sequential _ i hi
    simp only [List.length_append, List.length_singleton, sequential, List.map_append,
      List.map_cons, List.map_nil]
    rw [Sys.run, List.foldl_append]
    change Sys.run (Sys.run _ (sequential init.length)) _ = _
    rw [run_append _ _ _ _ hb, ih]
    have h3 := run_last_task
      { json := c0 ++ init.map (fun c => newRecord c.uuid c.body),
        xml := c0 ++ init.map (fun c => newRecord c.uuid c.body) }
      (init.map (fun c => { call := c, stage := .responded })) c
    simp only [List.length_map] at h3
    rw [h3]
    simp

/-- C10 fails as stated: two create calls against the empty store, both reading
before either writes, leave a collection of size one. -/
theorem interleaved_creates_lose_a_record :
    (list (Sys.run
        { disk := emptyDisk,
          tasks := [Task.fresh { uuid := "u1", body := ivan },
                    Task.fresh { uuid := "u2", body := lvivBody }] }
        [0, 1, 0, 1, 0, 1]).disk).length = 1 ∧
    (Sys.run
        { disk := emptyDisk,
          tasks := [Task.fresh { uuid := "u1", body := ivan },
                    Task.fresh { uuid := "u2", body := lvivBody }] }
        [0, 1, 0, 1, 0, 1]).tasks =
      [{ call := { uuid := "u1", body := ivan }, stage := .responded },
       { call := { uuid := "u2", body := lvivBody }, stage := .responded }] := by
  decide

/-- C10 (amended): when the create calls against an empty store run one after
another, with pairwise distinct generated identifiers and bodies without an
`id` key, every call is answered and the final `list()` holds one record per
call, in call order, with pairwise distinct `id` values. -/
theorem sequential_creates_keep_all (calls : List CreateCall)
    (huuid : (calls.map (fun c => c.uuid)).Nodup)
    (hbody : ∀ c ∈ calls, c.body.get "id" = none) :
    list (Sys.run { disk := emptyDisk, tasks := calls.map Task.fresh }
        (sequential calls.length)).disk =
      calls.map (fun c => newRecord c.uuid c.body) ∧
    (list (Sys.run { disk := emptyDisk, tasks := calls.map Task.fresh }
        (sequential calls.length)).disk).length = calls.length ∧
    ((list (Sys.run { disk := emptyDisk, tasks := calls.map Task.fresh }
        (sequential calls.length)).disk).map (fun r => r.get "id")).Nodup ∧
    (Sys.run { disk := emptyDisk, tasks := calls.map Task.fresh }
        (sequential calls.length)).tasks =
      calls.map (fun c => { call := c, stage := .responded }) := by
  have hrun := run_sequential [] calls
  simp only [List.nil_append] at hrun
  have hlist : list (Sys.run { disk := emptyDisk, tasks := calls.map Task.fresh }
      (sequential calls.length)).disk = calls.map (fun c => newRecord c.uuid c.body) := by
    rw [emptyDisk, hrun]
    rfl
  have hids : (calls.map (fun c => newRecord c.uuid c.body)).map (fun r => r.get "id") =
      (calls.map (fun c => c.uuid)).map (fun u => some (Json.str u)) := by
    rw [List.map_map, List.map_map]
    apply List.map_congr_left
    intro c hc
    simp [newRecord_id, hbody c hc]
  refine ⟨hlist, ?_, ?_, ?_⟩
  · rw [hlist, List.length_map]
  · rw [hlist, hids]
    apply List.Nodup.map _ huuid
    intro a b hab
    simpa using hab
  · rw [emptyDisk, hrun]

theorem sequential_creates_keep_all_witness :
    (([{ uuid := "u1", body := ivan }, { uuid := "u2", body := lvivBody }] :
        List CreateCall).map (fun c => c.uuid)).Nodup ∧
    (∀ c ∈ ([{ uuid := "u1", body := ivan }, { uuid := "u2", body := lvivBody }] :
        List CreateCall), c.body.get "id" = none) ∧
    (list (Sys.run
        { disk := emptyDisk,
          tasks := [{ uuid := "u1", body := ivan }, { uuid := "u2", body := lvivBody }].map
            Task.fresh }
        (sequential 2)).disk).length = 2 :=
  ⟨by decide, by decide,
    (sequential_creates_keep_all
      [{ uuid := "u1", body := ivan }, { uuid := "u2", body := lvivBody }]
      (by decide) (by decide)).2.1⟩

/-! ## The two encodings -/

/-- C7 fails as stated: two create calls against the empty store, where both
files agree, are both answered, and afterwards `records.json` holds only the
record of the first call and `records.xml` only the record of the second. -/
theorem interleaved_creates_split_encodings :
    emptyDisk.json = emptyDisk.xml ∧
    (Sys.run
        { disk := emptyDisk,
          tasks := [Task.fresh { uuid := "u1", body := ivan },
                    Task.fresh { uuid := "u2", body := lvivBody }] }
        [0, 1, 1, 0, 0, 1]).tasks =
      [{ call := { uuid := "u1", body := ivan }, stage := .responded },
       { call := { uuid := "u2", body := lvivBody }, stage := .responded }] ∧
    (Sys.run
        { disk := emptyDisk,
          tasks := [Task.fresh { uuid := "u1", body := ivan },
                    Task.fresh { uuid := "u2", body := lvivBody }] }
        [0, 1, 1, 0, 0, 1]).disk =
      { json := [newRecord "u1" ivan], xml := [newRecord "u2" lvivBody] } ∧
    newRecord "u1" ivan ≠ newRecord "u2" lvivBody := by
  decide

/-- C7 (amended): for a mutation that runs with no other mutation in between,
whenever create answers 201, update answers 200 or delete answers 204 the two
files hold the same collection afterwards, and it is the collection after the
mutation: the old one with the returned record appended (create), with the
first record of that `id` replaced in place by the returned record (update),
or without the records of that `id` (delete).  Without a storage fault create
and delete always answer so, and update does when some record has the `id`.
Create calls that run one after another from agreeing files leave the files
agreeing. -/
theorem encodings_agree_after_success (f : Fault) (d : Disk) :
    (∀ uuid body, (app.post f uuid body d).2.status = 201 →
      (app.post f uuid body d).1.xml = (app.post f uuid body d).1.json ∧
      (app.post f uuid body d).1.json = d.json ++ [newRecord uuid body] ∧
      (app.post f uuid body d).2 = .json 201 (newRecord uuid body)) ∧
    (∀ id body, (app.put f id body d).2.status = 200 →
      (app.put f id body d).1.xml = (app.put f id body d).1.json ∧
      ∃ pre old post,
        d.json = pre ++ old :: post ∧ (∀ r ∈ pre, idIs id r = false) ∧
        idIs id old = true ∧
        (app.put f id body d).1.json = pre ++ mergeRecord old body id :: post ∧
        (app.put f id body d).2 = .json 200 (mergeRecord old body id)) ∧
    (∀ id, (app.delete f id d).2.status = 204 →
      (app.delete f id d).1.xml = (app.delete f id d).1.json ∧
      (app.delete f id d).1.json = d.json.filter (fun r => !(idIs id r))) ∧
    (∀ uuid body, (app.post .none uuid body d).2.status = 201) ∧
    (∀ id body, (∃ r ∈ d.json, idIs id r = true) →
      (app.put .none id body d).2.status = 200) ∧
    (∀ id, (app.delete .none id d).2.status = 204) ∧
    (∀ calls : List CreateCall,
      (Sys.run { disk := { json := d.json, xml := d.json }, tasks := calls.map Task.fresh }
          (sequential calls.length)).disk.xml =
        (Sys.run { disk := { json := d.json, xml := d.json }, tasks := calls.map Task.fresh }
          (sequential calls.length)).disk.json) := by
  refine ⟨?_, ?_, ?_, fun _ _ => rfl, ?_, fun _ => rfl, ?_⟩
  · intro uuid body h
    cases f <;> simp [app.post, getRecords, saveRecords, Response.status] at h ⊢
  · intro id body h
    by_cases hm : ∃ r ∈ d.json, idIs id r = true
    · obtain ⟨pre, old, post, hc, hpre, hold⟩ := split_at_first_match id d.json hm
      have hd : d = { json := pre ++ old :: post, xml := d.xml } := by
        cases d; simp only at hc; rw [hc]
      have hput := put_at_first_match f pre post old d.xml id body hpre hold
      rw [← hd] at hput
      rw [hput] at h ⊢
      cases f
      · exact ⟨rfl, pre, old, post, hc, hpre, hold, rfl, rfl⟩
      all_goals simp [Response.status] at h
    · have hm1 : ∀ r ∈ d.json, idIs id r = false := by
        intro r hr
        cases hv : idIs id r with
        | false => rfl
        | true => exact absurd ⟨r, hr, hv⟩ hm
      rw [put_no_match f id body d hm1] at h
      cases f <;> simp [Response.status] at h
  · intro id h
    cases f <;> simp [app.delete, getRecords, saveRecords, Response.status] at h ⊢
  · intro id body hm
    obtain ⟨pre, old, post, hc, hpre, hold⟩ := split_at_first_match id d.json hm
    have hd : d = { json := pre ++ old :: post, xml := d.xml } := by
      cases d; simp only at hc; rw [hc]
    rw [hd, put_at_first_match .none pre post old d.xml id body hpre hold]
    rfl
  · intro calls
    rw [run_sequential d.json calls]

theorem encodings_agree_after_success_witness :
    (app.put .none "a1" lvivBody sampleDisk).2.status = 200 ∧
    (app.put .none "a1" lvivBody sampleDisk).1.xml =
      (app.put .none "a1" lvivBody sampleDisk).1.json ∧
    ∃ pre old post,
      sampleDisk.json = pre ++ old :: post ∧ (∀ r ∈ pre, idIs "a1" r = false) ∧
      idIs "a1" old = true ∧
      (app.put .none "a1" lvivBody sampleDisk).1.json =
        pre ++ mergeRecord old lvivBody "a1" :: post ∧
      (app.put .none "a1" lvivBody sampleDisk).2 = .json 200 (mergeRecord old lvivBody "a1") :=
  ⟨by decide, (encodings_agree_after_success .none sampleDisk).2.1 "a1" lvivBody (by decide)⟩

end RecordStore
